import Mathlib

/-!
Shallow embedding of the dozer streaming-SQL operator core
(`dozer-sql/src/pipeline`): the data model (`Field`, `Record`, `Operation`),
the join layer (`join.rs`, `join_table.rs`, `join_operator.rs`), the
aggregation processor (`aggregation/processor.rs`) and the projection
processor (`projection/processor.rs`), together with theorems settling the
claims about them.

Conventions of the embedding:
* Rust `u64` hash values are `Nat` (reduced `% 2 ^ 64` where produced).
* The external `ahash::AHasher` is not part of the sources; a concrete
  deterministic stand-in `hash64` over field vectors replaces it (the code
  only relies on it being a seedless stable function).
* Rust methods mutating `&mut self` become functions returning the updated
  state alongside their result.
* Fallible Rust code (`Result`) becomes `Except`; a Rust `assert!` failure
  (process abort, not a returned error) is a distinguished `panicked`
  outcome of the aggregation embedding.
-/

deriving instance DecidableEq for Except

namespace Dozer

/-- Modelled from the spec: the external `dozer_types` field-type enumeration;
only a representative subset of the tags is needed by the operator core, which
never inspects payloads. -/
inductive FieldType where
  | intTy
  | stringTy
  | booleanTy
  deriving DecidableEq, Repr

/-- Modelled from the spec: a typed column descriptor of the external
`dozer_types::types::Schema` ("ordered list of typed column descriptors");
the operator core only ever uses the column count and the evaluator
interface. -/
structure FieldDefinition where
  name : String
  typ : FieldType
  deriving DecidableEq, Repr

/-- Modelled from the spec: the external `dozer_types::types::Schema`,
an ordered list of column descriptors. -/
structure Schema where
  fields : List FieldDefinition
  deriving DecidableEq, Repr

/-- Modelled from the spec: the external `dozer_types::types::Field`,
"a tagged value (integer, float, decimal, string, binary, boolean,
timestamp, null, ...)"; a representative subset of the tags suffices
because the operator core treats fields opaquely. -/
inductive Field where
  | null
  | int (i : Int)
  | str (s : String)
  | boolean (b : Bool)
  deriving DecidableEq, Repr

/-- Modelled from the spec: the external `dozer_types` record lifetime
annotation, "propagated verbatim through projection"; its payload is opaque
to the operator core. -/
structure Lifetime where
  reference : Nat
  duration : Nat
  deriving DecidableEq, Repr

/-- Modelled from the spec: the external `dozer_types::types::Record`:
"ordered sequence of Fields, plus an optional lifetime annotation". -/
structure Record where
  values : List Field
  lifetime : Option Lifetime
  deriving DecidableEq, Repr

/-- `Record::new(None, values)` / `Record::new(None, values, None)`:
a fresh record with no lifetime. -/
def Record.new (values : List Field) : Record :=
  { values := values, lifetime := none }

/-- `Record::from_schema(schema)`: one null field per column
(join_operator.rs uses it for the missing outer side). -/
def Record.from_schema (schema : Schema) : Record :=
  Record.new (schema.fields.map fun _ => Field.null)

/-- `Record::get_fields_by_indexes(idxs)`: the fields at the given positions,
preserving order. The source indexes into the value vector (in-range by
construction for join-key indexes); out-of-range positions yield `null` here. -/
def Record.get_fields_by_indexes (r : Record) (idxs : List Nat) : List Field :=
  idxs.map fun i => r.values.getD i Field.null

/-- Modelled from the spec: the external `dozer_types::types::Operation`,
"one of Insert{new}, Delete{old}, Update{old,new}". -/
inductive Operation where
  | insert (new : Record)
  | delete (old : Record)
  | update (old new : Record)
  deriving DecidableEq, Repr

/-- An injective-enough numeric code for a field tag+payload, feeding the
hash stand-in. -/
def Field.code : Field → Nat
  | .null => 0
  | .int i => 1 + 4 * (2 * i.natAbs + (if i < 0 then 1 else 0))
  | .str s => 2 + 4 * (s.foldl (fun acc c => acc * 1114112 + c.toNat) 0)
  | .boolean b => 3 + 4 * (cond b 1 0)

/-- Modelled from the spec: the seedless stable 64-bit hash of a field
vector ("hash with a stable 64-bit hasher"); stands in for the external
`ahash::AHasher` used by `get_key`, `JoinTable::execute` and the join-key
hashing in `join_operator.rs`. -/
def hash64 (fs : List Field) : Nat :=
  fs.foldl (fun acc f => (acc * 1099511628211 + Field.code f + 1) % 2 ^ 64)
    14695981039346656037

/-- Modelled from the spec: the evaluator-side error surface
(`PipelineError` / `TypeError`): "may fail with a typed error". -/
inductive PipelineError where
  | typeError (msg : String)
  | internal (msg : String)
  deriving DecidableEq, Repr

/-- Modelled from the spec: the transport error surface (`ExecutionError`);
operator errors cross the processor boundary wrapped as `InternalError`. -/
inductive ExecutionError where
  | internalError (e : PipelineError)
  | channelError (msg : String)
  deriving DecidableEq, Repr

/-- Modelled from the spec: the consumed expression-evaluator capability,
`evaluate(record, schema) -> Result<Field, TypeError>` (`Expression` itself
lives outside the extracted sources). -/
abbrev Expression := Record → Schema → Except PipelineError Field

/-- `multimap::MultiMap<u64, V>` as used by the join layer: an association
list from `u64` keys to the bucket of values inserted at that key (the crate
stores `HashMap<K, Vec<V>>`; key order is irrelevant to the claims). -/
abbrev MultiMap (β : Type) : Type := List (Nat × List β)

namespace MultiMap

/-- The empty multimap (`MultiMap::new`). -/
def empty {β : Type} : MultiMap β := []

/-- `MultiMap::get_vec(&k)`: the bucket at `k`, if the key is present
(the crate never stores an empty bucket). -/
def getVec {β : Type} : MultiMap β → Nat → Option (List β)
  | [], _ => none
  | (k', vs) :: rest, k => if k' = k then some vs else getVec rest k

/-- `MultiMap::insert(k, v)`: push `v` at the end of the bucket at `k`,
creating the bucket if absent. -/
def insertEntry {β : Type} : MultiMap β → Nat → β → MultiMap β
  | [], k, v => [(k, [v])]
  | (k', vs) :: rest, k, v =>
      if k' = k then (k', vs ++ [v]) :: rest
      else (k', vs) :: insertEntry rest k v

/-- `MultiMap::remove(&k)`: removes the key and its ENTIRE bucket
(this is the primitive the join layer calls on every delete). -/
def removeKey {β : Type} : MultiMap β → Nat → MultiMap β
  | [], _ => []
  | (k', vs) :: rest, k =>
      if k' = k then removeKey rest k else (k', vs) :: removeKey rest k

end MultiMap

/-! ## Join layer (`product/join.rs`, `join_table.rs`, `join_operator.rs`) -/

/-- `JoinAction` (join.rs). -/
inductive JoinAction where
  | insert
  | delete
  deriving DecidableEq, Repr

mutual

/-- `JoinLookupKey` (join.rs): `Lookup(LookupKey(u64))` at a leaf, or a
`CompositeLookupKey { left, right }` at a join node (`Box`es elided). -/
inductive JoinLookupKey where
  | lookup (key : Nat)
  | composite (left right : OptLookupKey)
  deriving DecidableEq, Repr

/-- `Option<Box<JoinLookupKey>>` of the composite key's sides, spelt as a
mutual inductive (Lean's derive handler does not support nesting `Option`);
`none` on a side means "no matching record on that side in an outer join". -/
inductive OptLookupKey where
  | none
  | some (key : JoinLookupKey)
  deriving DecidableEq, Repr

end

/-- `JoinOperatorType` (join_operator.rs). -/
inductive JoinOperatorType where
  | inner
  | leftOuter
  | rightOuter
  deriving DecidableEq, Repr

/-- `JoinError` (errors.rs, as referenced by the join layer). -/
inductive JoinError where
  | invalidSource (port : Nat)
  | invalidLookupKey (key : JoinLookupKey) (port : Nat)
  | invalidJoinKey (key : JoinLookupKey)
  | historyRecordNotFound (key : Nat) (port : Nat)
  deriving DecidableEq, Repr

/-- `JoinTable` (join_table.rs): a leaf bound to one port, holding the
per-source record store keyed by content hash. -/
structure JoinTable where
  port : Nat
  schema : Schema
  record_store : MultiMap Record
  deriving DecidableEq, Repr

/-- `JoinSource` (join.rs) fused with the `JoinOperator` struct
(join_operator.rs): Lean cannot mutually nest a structure in an inductive,
so the operator's fields are carried by the `join` constructor. -/
inductive JoinSource where
  | table (t : JoinTable)
  | join (operator : JoinOperatorType)
      (left_join_key_indexes right_join_key_indexes : List Nat)
      (schema : Schema)
      (left_source right_source : JoinSource)
      (left_lookup_index_map right_lookup_index_map : MultiMap JoinLookupKey)
  deriving DecidableEq, Repr

/-- `JoinSource::get_output_schema`. -/
def JoinSource.get_output_schema : JoinSource → Schema
  | .table t => t.schema
  | .join _ _ _ schema _ _ _ _ => schema

/-- `join_records` (join_operator.rs:567): concatenate the value vectors,
no lifetime. -/
def join_records (left_record right_record : Record) : Record :=
  Record.new (left_record.values ++ right_record.values)

/-- `JoinTable::execute` (join_table.rs:37): hash the record content,
insert or delete at that hash in the record store (the source's `Delete`
arm calls `MultiMap::remove`, dropping the whole bucket), and return the
single tuple `(action, record, Lookup(h))`. The `debug_assert!` on the
port is a no-op in release builds and is not modelled. -/
def JoinTable.execute (t : JoinTable) (action : JoinAction) (record : Record) :
    JoinTable × List (JoinAction × Record × JoinLookupKey) :=
  let lookup_key := hash64 record.values
  let store :=
    match action with
    | .insert => t.record_store.insertEntry lookup_key record
    | .delete => t.record_store.removeKey lookup_key
  ({ t with record_store := store },
    [(action, record, JoinLookupKey.lookup lookup_key)])

/-- `JoinTable::lookup` (join_table.rs:65): accept only `Lookup(h)`; return
the bucket at `h` or `HistoryRecordNotFound`; a composite key at a leaf is
`InvalidLookupKey`. -/
def JoinTable.lookup (t : JoinTable) (key : JoinLookupKey) :
    Except JoinError (List Record) :=
  match key with
  | .lookup h =>
      match t.record_store.getVec h with
      | Option.some records => .ok records
      | Option.none => .error (.historyRecordNotFound h t.port)
  | k => .error (.invalidLookupKey k t.port)

/-- `JoinSource::lookup` (join.rs:48 dispatch; join_operator.rs:168 for the
node case). At a node, split the composite key; for a `some` side recurse,
for a `none` side produce the single null record shaped to that side's
output schema (modelled from the spec for the `none` sides: "left_records =
left_source.lookup(left) if Some, else a single null record shaped to the
left output schema" - the extracted source passes the `Option` through
untyped); cartesian-product left with right, concatenating. A leaf
`Lookup` at a node is `InvalidJoinKey`. -/
def JoinSource.lookup : JoinSource → JoinLookupKey → Except JoinError (List Record)
  | .table t, key => t.lookup key
  | .join _ _ _ _ ls rs _ _, key =>
      match key with
      | .lookup h => .error (.invalidJoinKey (.lookup h))
      | .composite lkey rkey => do
          let left_records ←
            match lkey with
            | .some k => ls.lookup k
            | .none => pure [Record.from_schema ls.get_output_schema]
          let right_records ←
            match rkey with
            | .some k => rs.lookup k
            | .none => pure [Record.from_schema rs.get_output_schema]
          pure (left_records.flatMap fun l =>
            right_records.map fun r => join_records l r)

/-- `JoinOperator::update_left_index` (join_operator.rs:523): `Insert`
inserts `(key, value)`; `Delete` calls `MultiMap::remove(&key)`, removing
the whole bucket. -/
def update_left_index (m : MultiMap JoinLookupKey) (action : JoinAction)
    (key : Nat) (value : JoinLookupKey) : MultiMap JoinLookupKey :=
  match action with
  | .insert => m.insertEntry key value
  | .delete => m.removeKey key

/-- `JoinOperator::update_right_index` (join_operator.rs:534): same body as
`update_left_index`, on the right map. -/
def update_right_index (m : MultiMap JoinLookupKey) (action : JoinAction)
    (key : Nat) (value : JoinLookupKey) : MultiMap JoinLookupKey :=
  match action with
  | .insert => m.insertEntry key value
  | .delete => m.removeKey key

/-- The loop nest shared by the non-compensating expansions ("for rk in
keys { recs = lookup(rk)?; for r in recs { push mk(r, rk) } }"). -/
def expand_matches (lookup : JoinLookupKey → Except JoinError (List Record))
    (keys : List JoinLookupKey)
    (mk : Record → JoinLookupKey → JoinAction × Record × JoinLookupKey) :
    Except JoinError (List (JoinAction × Record × JoinLookupKey)) :=
  match keys with
  | [] => .ok []
  | rk :: rest => do
      let recs ← lookup rk
      let tail ← expand_matches lookup rest mk
      pure ((recs.map fun r => mk r rk) ++ tail)

/-- The loop nest of the compensating (reverse) expansions, where each
matched record may contribute several events. -/
def expand_compensating (lookup : JoinLookupKey → Except JoinError (List Record))
    (keys : List JoinLookupKey)
    (emit : Record → JoinLookupKey → List (JoinAction × Record × JoinLookupKey)) :
    Except JoinError (List (JoinAction × Record × JoinLookupKey)) :=
  match keys with
  | [] => .ok []
  | rk :: rest => do
      let recs ← lookup rk
      let tail ← expand_compensating lookup rest emit
      pure ((recs.flatMap fun r => emit r rk) ++ tail)

/-- `JoinOperator::left_join` (join_operator.rs:249), written over the
operator's fields (`&self` components) it reads: if the right bucket at the
left join-key hash is empty, emit one `(action, concat(left, null_record),
Composite{Some(lk), None})`; otherwise one event per matching right record. -/
def left_join (right_lookup_index_map : MultiMap JoinLookupKey)
    (right_source : JoinSource) (action : JoinAction) (left_join_key : Nat)
    (left_record : Record) (left_lookup_key : JoinLookupKey) :
    Except JoinError (List (JoinAction × Record × JoinLookupKey)) :=
  let right_lookup_keys := (right_lookup_index_map.getVec left_join_key).getD []
  if right_lookup_keys.isEmpty then
    .ok [(action,
          join_records left_record (Record.from_schema right_source.get_output_schema),
          JoinLookupKey.composite (.some left_lookup_key) .none)]
  else
    expand_matches right_source.lookup right_lookup_keys fun r rk =>
      (action, join_records left_record r,
        JoinLookupKey.composite (.some left_lookup_key) (.some rk))

/-- `JoinOperator::get_left_matching_count` (join_operator.rs:499): the size
of the LEFT lookup-index bucket at the hash of the right record's join-key
fields, minus one when the action is `Insert` (the source decrements a
`usize`; the subtraction here is the truncated `Nat` one - the claims and
witnesses only inhabit the non-underflowing region). -/
def get_left_matching_count (left_lookup_index_map : MultiMap JoinLookupKey)
    (right_join_key_indexes : List Nat) (action : JoinAction)
    (right_record : Record) : Nat :=
  let right_join_key := hash64 (right_record.get_fields_by_indexes right_join_key_indexes)
  let left_lookup_keys := (left_lookup_index_map.getVec right_join_key).getD []
  left_lookup_keys.length - (if action = JoinAction.insert then 1 else 0)

/-- `JoinOperator::right_join_reverse` (join_operator.rs:329): a left
arrival under a RightOuter join. Empty right bucket: emit nothing. For each
matching right record: positive pre-event left match count emits the single
event; count zero crosses the boundary and emits the compensating pair,
whose placeholder carries `Composite{Some(lk), None}` exactly as the source
writes it. -/
def right_join_reverse (left_lookup_index_map right_lookup_index_map : MultiMap JoinLookupKey)
    (right_join_key_indexes : List Nat) (left_source right_source : JoinSource)
    (action : JoinAction) (left_join_key : Nat) (left_record : Record)
    (left_lookup_key : JoinLookupKey) :
    Except JoinError (List (JoinAction × Record × JoinLookupKey)) :=
  let right_lookup_keys := (right_lookup_index_map.getVec left_join_key).getD []
  if right_lookup_keys.isEmpty then
    .ok []
  else
    expand_compensating right_source.lookup right_lookup_keys fun r rk =>
      let left_matching_count :=
        get_left_matching_count left_lookup_index_map right_join_key_indexes action r
      let join_record := join_records left_record r
      let join_lookup_key := JoinLookupKey.composite (.some left_lookup_key) (.some rk)
      if left_matching_count > 0 then
        [(action, join_record, join_lookup_key)]
      else
        match action with
        | .insert =>
            [(JoinAction.delete,
               join_records (Record.from_schema left_source.get_output_schema) r,
               JoinLookupKey.composite (.some left_lookup_key) .none),
             (JoinAction.insert, join_record, join_lookup_key)]
        | .delete =>
            [(JoinAction.delete, join_record, join_lookup_key),
             (JoinAction.insert,
               join_records (Record.from_schema left_source.get_output_schema) r,
               JoinLookupKey.composite (.some left_lookup_key) .none)]

/-- Sequential lookups of a key list, stopping at the first error (the
behaviour of the source's loops, factored for statements about them). -/
def lookup_list (lookup : JoinLookupKey → Except JoinError (List Record)) :
    List JoinLookupKey → Except JoinError (List (List Record))
  | [] => .ok []
  | k :: rest => do
      let recs ← lookup k
      let tail ← lookup_list lookup rest
      pure (recs :: tail)

/-! ## Aggregation processor (`aggregation/processor.rs`) -/

/-- The outcome of an aggregation-side call: `ok` / a returned `Err`
(`PipelineError`), or `panicked` for a Rust `assert!` failure or
out-of-bounds index, which aborts the process instead of returning. -/
inductive AggResult (α : Type) where
  | ok (a : α)
  | err (e : PipelineError)
  | panicked
  deriving DecidableEq, Repr

/-- `AggregationState` (processor.rs:36): per-group live-row count, one
aggregator state per measure, and the last emitted measure values. The
aggregator states are abstract (`Box<dyn Aggregator>`), hence the type
parameter. -/
structure AggregationState (σ : Type) where
  count : Nat
  states : List σ
  values : Option (List Field)
  deriving DecidableEq, Repr

/-- `AggregatorOperation` (processor.rs:72). -/
inductive AggregatorOperation where
  | insert
  | delete
  | update
  deriving DecidableEq, Repr

/-- `AggregationProcessor` (processor.rs:60). The group table
(`hashbrown::HashMap<u64, AggregationState>`) is an association list with
at most one entry per key. The consumed aggregator capability
(`Box<dyn Aggregator>`, aggregator.rs is outside the extracted sources) is
carried as the three state-transition functions `agg_ins` / `agg_del` /
`agg_upd` (spec 4.2: `insert / delete / update -> new Field`) plus the
initial per-measure states `init_states` built by `AggregationState::new`. -/
structure AggregationProcessor (σ : Type) where
  dimensions : List Expression
  measures : List (List Expression)
  projections : List Expression
  input_schema : Schema
  aggregation_schema : Schema
  states : List (Nat × AggregationState σ)
  default_segment_key : Nat
  agg_ins : σ → List Field → Except PipelineError (σ × Field)
  agg_del : σ → List Field → Except PipelineError (σ × Field)
  agg_upd : σ → List Field → List Field → Except PipelineError (σ × Field)
  init_states : List σ

namespace AggregationProcessor

/-- `HashMap::get` on the group table. -/
def getState {σ : Type} : List (Nat × AggregationState σ) → Nat →
    Option (AggregationState σ)
  | [], _ => Option.none
  | (k', st) :: rest, k => if k' = k then Option.some st else getState rest k

/-- Store `st` at `k`: overwrite the existing entry, or append one if
absent (covers both `HashMap::entry(k).or_insert(..)` followed by mutation
through the returned reference, and plain mutation through `get_mut`). -/
def setState {σ : Type} : List (Nat × AggregationState σ) → Nat →
    AggregationState σ → List (Nat × AggregationState σ)
  | [], k, st => [(k, st)]
  | (k', st') :: rest, k, st =>
      if k' = k then (k, st) :: rest else (k', st') :: setState rest k st

/-- `HashMap::remove` on the group table. -/
def removeState {σ : Type} : List (Nat × AggregationState σ) → Nat →
    List (Nat × AggregationState σ)
  | [], _ => []
  | (k', st') :: rest, k =>
      if k' = k then removeState rest k else (k', st') :: removeState rest k

/-- The fresh group state built by `AggregationState::new` (processor.rs:42):
count `0`, the initialised aggregator states, no values yet. -/
def freshState {σ : Type} (p : AggregationProcessor σ) : AggregationState σ :=
  { count := 0, states := p.init_states, values := Option.none }

/-- The evaluation loop `for m in measure { fields.push(m.evaluate(...)?) }`. -/
def eval_list (exprs : List Expression) (r : Record) (s : Schema) :
    Except PipelineError (List Field) :=
  match exprs with
  | [] => .ok []
  | e :: rest => do
      let f ← e r s
      let tail ← eval_list rest r s
      pure (f :: tail)

/-- `get_key` (processor.rs:381): evaluate the dimension expressions and
hash the resulting field tuple. -/
def get_key (schema : Schema) (record : Record) (dimensions : List Expression) :
    Except PipelineError Nat := do
  let key ← eval_list dimensions record schema
  pure (hash64 key)

/-- The key selection inlined in `agg_insert` / `agg_delete`
(processor.rs:178, 238): `get_key` when dimensions exist, the sentinel
`default_segment_key` otherwise. -/
def record_key {σ : Type} (p : AggregationProcessor σ) (record : Record) :
    Except PipelineError Nat :=
  if p.dimensions.isEmpty then .ok p.default_segment_key
  else get_key p.input_schema record p.dimensions

/-- The body of one iteration of `calc_and_fill_measures`'s loop: the
per-operation argument evaluation and aggregator call (processor.rs:132). -/
def measure_step {σ : Type} (p : AggregationProcessor σ)
    (deleted_record inserted_record : Option Record)
    (op : AggregatorOperation) (measure : List Expression) (aggr : σ) :
    AggResult (σ × Field) :=
  match op with
  | .insert =>
      match inserted_record with
      | Option.none => .panicked
      | Option.some r =>
          match eval_list measure r p.input_schema with
          | .error e => .err e
          | .ok inserted_fields =>
              match p.agg_ins aggr inserted_fields with
              | .error e => .err e
              | .ok sv => .ok sv
  | .delete =>
      match deleted_record with
      | Option.none => .panicked
      | Option.some r =>
          match eval_list measure r p.input_schema with
          | .error e => .err e
          | .ok deleted_fields =>
              match p.agg_del aggr deleted_fields with
              | .error e => .err e
              | .ok sv => .ok sv
  | .update =>
      match deleted_record, inserted_record with
      | Option.some rd, Option.some ri =>
          match eval_list measure rd p.input_schema with
          | .error e => .err e
          | .ok deleted_fields =>
              match eval_list measure ri p.input_schema with
              | .error e => .err e
              | .ok inserted_fields =>
                  match p.agg_upd aggr deleted_fields inserted_fields with
                  | .error e => .err e
                  | .ok sv => .ok sv
      | _, _ => .panicked

/-- The loop of `calc_and_fill_measures` (processor.rs:128), recursing over
the measures with the per-measure aggregator states and the current values
consumed in lockstep (the source indexes `states[idx]` / `values[idx]`; an
out-of-bounds index aborts, hence `panicked`). Returns the aggregator
states as left by the loop - on an error, the prefix already processed
keeps its mutations, as in the source - together with `out_rec_delete`,
`out_rec_insert` and `new_fields` on success. -/
def calc_loop {σ : Type} (p : AggregationProcessor σ)
    (deleted_record inserted_record : Option Record) (op : AggregatorOperation) :
    List (List Expression) → List σ → Option (List Field) →
    List σ × AggResult (List Field × List Field × List Field)
  | [], aggrs, _ => (aggrs, .ok ([], [], []))
  | _ :: _, [], _ => ([], .panicked)
  | measure :: ms, aggr :: aggrs, vals =>
      let curr_val : AggResult (Option Field) :=
        match vals with
        | Option.none => .ok Option.none
        | Option.some [] => .panicked
        | Option.some (v :: _) => .ok (Option.some v)
      match curr_val with
      | .panicked => (aggr :: aggrs, .panicked)
      | .err e => (aggr :: aggrs, .err e)
      | .ok curr_val_opt =>
          match measure_step p deleted_record inserted_record op measure aggr with
          | .panicked => (aggr :: aggrs, .panicked)
          | .err e => (aggr :: aggrs, .err e)
          | .ok (aggr', new_val) =>
              let tail := calc_loop p deleted_record inserted_record op ms aggrs
                (vals.map fun vs => vs.tail)
              match tail with
              | (aggrs', .ok (out_del, out_ins, new_fields)) =>
                  (aggr' :: aggrs',
                    .ok ((curr_val_opt.toList ++ out_del),
                         new_val :: out_ins, new_val :: new_fields))
              | (aggrs', .err e) => (aggr' :: aggrs', .err e)
              | (aggrs', .panicked) => (aggr' :: aggrs', .panicked)

/-- `calc_and_fill_measures` (processor.rs:114): run the loop and leave the
group state with its (possibly partially) updated aggregator states; count
and values are untouched here. -/
def calc_and_fill_measures {σ : Type} (p : AggregationProcessor σ)
    (curr_state : AggregationState σ) (deleted_record inserted_record : Option Record)
    (op : AggregatorOperation) :
    AggregationState σ × AggResult (List Field × List Field × List Field) :=
  let r := calc_loop p deleted_record inserted_record op p.measures
    curr_state.states curr_state.values
  ({ curr_state with states := r.1 }, r.2)

/-- `build_projection` (processor.rs:338): temporarily extend the record's
values with the measure fields, evaluate every projection expression under
the aggregation schema, restore the record (a no-op functionally), and
return a fresh record of the outputs with no lifetime. -/
def build_projection {σ : Type} (p : AggregationProcessor σ)
    (original : Record) (measure_fields : List Field) :
    Except PipelineError Record := do
  let extended : Record :=
    { values := original.values ++ measure_fields, lifetime := original.lifetime }
  let output ← eval_list p.projections extended p.aggregation_schema
  pure (Record.new output)

/-- `agg_insert` (processor.rs:234). `entry(key).or_insert(fresh)`
materialises the group before the measures run, so a failing evaluation
leaves the (possibly fresh, count-0) entry in the table; the emitted event
is chosen on the pre-increment count; `count += 1` and
`values = Some(new)` happen only after the projections succeeded. -/
def agg_insert {σ : Type} (p : AggregationProcessor σ) (new : Record) :
    AggregationProcessor σ × AggResult Operation :=
  match record_key p new with
  | .error e => (p, .err e)
  | .ok key =>
      let curr_state := (getState p.states key).getD (freshState p)
      match calc_and_fill_measures p curr_state Option.none (Option.some new)
          AggregatorOperation.insert with
      | (st', .err e) => ({ p with states := setState p.states key st' }, .err e)
      | (st', .panicked) => ({ p with states := setState p.states key st' }, .panicked)
      | (st', .ok (out_rec_delete, out_rec_insert, new_values)) =>
          let res : Except PipelineError Operation :=
            if st'.count = 0 then do
              let newRec ← build_projection p new out_rec_insert
              pure (Operation.insert newRec)
            else do
              let newRec ← build_projection p new out_rec_insert
              let oldRec ← build_projection p new out_rec_delete
              pure (Operation.update oldRec newRec)
          match res with
          | .error e => ({ p with states := setState p.states key st' }, .err e)
          | .ok op =>
              let st2 := { st' with count := st'.count + 1, values := Option.some new_values }
              ({ p with states := setState p.states key st2 }, .ok op)

/-- `agg_delete` (processor.rs:174). A missing group fails the `assert!`
(process abort). On `count == 1` the group is removed BEFORE the
projection runs; otherwise `count -= 1` and `values = Some(new)` are set
before the two projections. -/
def agg_delete {σ : Type} (p : AggregationProcessor σ) (old : Record) :
    AggregationProcessor σ × AggResult Operation :=
  match record_key p old with
  | .error e => (p, .err e)
  | .ok key =>
      match getState p.states key with
      | Option.none => (p, .panicked)
      | Option.some curr_state =>
          match calc_and_fill_measures p curr_state (Option.some old) Option.none
              AggregatorOperation.delete with
          | (st', .err e) => ({ p with states := setState p.states key st' }, .err e)
          | (st', .panicked) => ({ p with states := setState p.states key st' }, .panicked)
          | (st', .ok (out_rec_delete, out_rec_insert, new_values)) =>
              if st'.count = 1 then
                let states' := removeState p.states key
                match build_projection p old out_rec_delete with
                | .error e => ({ p with states := states' }, .err e)
                | .ok oldRec => ({ p with states := states' }, .ok (Operation.delete oldRec))
              else
                let states' := setState p.states key
                  { st' with count := st'.count - 1, values := Option.some new_values }
                match build_projection p old out_rec_insert with
                | .error e => ({ p with states := states' }, .err e)
                | .ok newRec =>
                    match build_projection p old out_rec_delete with
                    | .error e => ({ p with states := states' }, .err e)
                    | .ok oldRec =>
                        ({ p with states := states' },
                          .ok (Operation.update oldRec newRec))

/-- `agg_update` (processor.rs:292): single combined pass on the group at
`key` using the aggregator's `update`; a missing group fails the `assert!`;
`values = Some(new)` is set after the projections; `count` is untouched. -/
def agg_update {σ : Type} (p : AggregationProcessor σ) (old new : Record)
    (key : Nat) : AggregationProcessor σ × AggResult Operation :=
  match getState p.states key with
  | Option.none => (p, .panicked)
  | Option.some curr_state =>
      match calc_and_fill_measures p curr_state (Option.some old) (Option.some new)
          AggregatorOperation.update with
      | (st', .err e) => ({ p with states := setState p.states key st' }, .err e)
      | (st', .panicked) => ({ p with states := setState p.states key st' }, .panicked)
      | (st', .ok (out_rec_delete, out_rec_insert, new_values)) =>
          match build_projection p new out_rec_insert with
          | .error e => ({ p with states := setState p.states key st' }, .err e)
          | .ok newRec =>
              match build_projection p old out_rec_delete with
              | .error e => ({ p with states := setState p.states key st' }, .err e)
              | .ok oldRec =>
                  let st2 := { st' with values := Option.some new_values }
                  ({ p with states := setState p.states key st2 },
                    .ok (Operation.update oldRec newRec))

/-- The Update-arm key computation of `aggregate` (processor.rs:362): the
sentinel pair when the dimension list is empty, else the two dimension
hashes (old first). -/
def update_keys {σ : Type} (p : AggregationProcessor σ) (old new : Record) :
    Except PipelineError (Nat × Nat) :=
  if p.dimensions.isEmpty then .ok (p.default_segment_key, p.default_segment_key)
  else do
    let old_record_hash ← get_key p.input_schema old p.dimensions
    let new_record_hash ← get_key p.input_schema new p.dimensions
    pure (old_record_hash, new_record_hash)

/-- `aggregate` (processor.rs:354): dispatch per operation; an Update with
equal dimension hashes is one `agg_update`, otherwise `agg_delete(old)`
followed by `agg_insert(new)`. -/
def aggregate {σ : Type} (p : AggregationProcessor σ) (op : Operation) :
    AggregationProcessor σ × AggResult (List Operation) :=
  match op with
  | .insert new =>
      match agg_insert p new with
      | (p', .ok o) => (p', .ok [o])
      | (p', .err e) => (p', .err e)
      | (p', .panicked) => (p', .panicked)
  | .delete old =>
      match agg_delete p old with
      | (p', .ok o) => (p', .ok [o])
      | (p', .err e) => (p', .err e)
      | (p', .panicked) => (p', .panicked)
  | .update old new =>
      match update_keys p old new with
      | .error e => (p, .err e)
      | .ok (old_record_hash, new_record_hash) =>
          if old_record_hash = new_record_hash then
            match agg_update p old new old_record_hash with
            | (p', .ok o) => (p', .ok [o])
            | (p', .err e) => (p', .err e)
            | (p', .panicked) => (p', .panicked)
          else
            match agg_delete p old with
            | (p', .ok o1) =>
                match agg_insert p' new with
                | (p'', .ok o2) => (p'', .ok [o1, o2])
                | (p'', .err e) => (p'', .err e)
                | (p'', .panicked) => (p'', .panicked)
            | (p', .err e) => (p', .err e)
            | (p', .panicked) => (p', .panicked)

end AggregationProcessor

/-! ## Projection processor (`projection/processor.rs`) -/

/-- Modelled from the spec: `dozer_core::DEFAULT_PORT_HANDLE`, the single
output port every processor sends on; its numeric value is irrelevant to
the claims. -/
def DEFAULT_PORT_HANDLE : Nat := 65535

/-- `ProjectionProcessor` (processor.rs:12): an input schema and an ordered
expression list; nothing else - the processor is stateless. -/
structure ProjectionProcessor where
  expressions : List Expression
  input_schema : Schema

namespace ProjectionProcessor

/-- The evaluation loop of `insert` / `delete` (processor.rs:29, 46):
evaluate each expression in declared order, wrapping a failure as
`ExecutionError::InternalError`. -/
def project_values (exprs : List Expression) (r : Record) (s : Schema) :
    Except ExecutionError (List Field) :=
  match exprs with
  | [] => .ok []
  | e :: rest =>
      match e r s with
      | .error pe => .error (.internalError pe)
      | .ok f =>
          match project_values rest r s with
          | .error er => .error er
          | .ok tail => .ok (f :: tail)

/-- `ProjectionProcessor::delete` (processor.rs:25): evaluate all
expressions against the old record, copy its lifetime onto the output. -/
def delete (p : ProjectionProcessor) (record : Record) :
    Except ExecutionError Operation :=
  match project_values p.expressions record p.input_schema with
  | .error e => .error e
  | .ok results =>
      .ok (Operation.delete { values := results, lifetime := record.lifetime })

/-- `ProjectionProcessor::insert` (processor.rs:42): evaluate all
expressions against the new record, copy its lifetime onto the output. -/
def insert (p : ProjectionProcessor) (record : Record) :
    Except ExecutionError Operation :=
  match project_values p.expressions record p.input_schema with
  | .error e => .error e
  | .ok results =>
      .ok (Operation.insert { values := results, lifetime := record.lifetime })

/-- The interleaved evaluation loop of `update` (processor.rs:65): for each
expression, old first then new. -/
def update_loop (exprs : List Expression) (old new : Record) (s : Schema) :
    Except ExecutionError (List Field × List Field) :=
  match exprs with
  | [] => .ok ([], [])
  | e :: rest =>
      match e old s with
      | .error pe => .error (.internalError pe)
      | .ok ov =>
          match e new s with
          | .error pe => .error (.internalError pe)
          | .ok nv =>
              match update_loop rest old new s with
              | .error er => .error er
              | .ok (os, ns) => .ok (ov :: os, nv :: ns)

/-- `ProjectionProcessor::update` (processor.rs:58): both records
projected, each keeping its own lifetime. -/
def update (p : ProjectionProcessor) (old new : Record) :
    Except ExecutionError Operation :=
  match update_loop p.expressions old new p.input_schema with
  | .error e => .error e
  | .ok (old_results, new_results) =>
      .ok (Operation.update
        { values := old_results, lifetime := old.lifetime }
        { values := new_results, lifetime := new.lifetime })

/-- `Processor::process` for the projection processor (processor.rs:88).
The forwarder is the consumed `send` capability; the trace of `send` calls
made is returned alongside the result so emissions can be stated. The
source writes `let _ = fw.send(..)`: the send result is computed and
dropped, and `process` returns `Ok(())` - which the trailing
`let _ := send ..` here mirrors. The `?` on `self.delete/insert/update`
propagates evaluation errors before any send. The processor state is not
threaded because `process` never mutates it. -/
def process (p : ProjectionProcessor)
    (send : Operation → Nat → Except ExecutionError Unit) (op : Operation) :
    List (Operation × Nat) × Except ExecutionError Unit :=
  match op with
  | .delete old =>
      match p.delete old with
      | .error e => ([], .error e)
      | .ok o =>
          let _ := send o DEFAULT_PORT_HANDLE
          ([(o, DEFAULT_PORT_HANDLE)], .ok ())
  | .insert new =>
      match p.insert new with
      | .error e => ([], .error e)
      | .ok o =>
          let _ := send o DEFAULT_PORT_HANDLE
          ([(o, DEFAULT_PORT_HANDLE)], .ok ())
  | .update old new =>
      match p.update old new with
      | .error e => ([], .error e)
      | .ok o =>
          let _ := send o DEFAULT_PORT_HANDLE
          ([(o, DEFAULT_PORT_HANDLE)], .ok ())

end ProjectionProcessor

/-! ## Theorems -/

/-! ### C2 - multimap delete semantics in the join layer -/

/-- A join leaf over a single int column, with an empty store. -/
def c2_table : JoinTable :=
  { port := 0
    schema := { fields := [{ name := "a", typ := FieldType.intTy }] }
    record_store := MultiMap.empty }

/-- A record inserted twice into `c2_table` (legitimate duplicate content). -/
def c2_record : Record := Record.new [Field.int 5]

/-- Claim C2, behaviour of the code at the failing input: after inserting
the same record twice (two entries under one content hash) a single
`Delete` through `JoinTable::execute` empties the whole store, rather than
leaving one duplicate; likewise `update_left_index` / `update_right_index`
with action `Delete` drop the entire bucket at the join-key hash, rather
than removing one lookup-key entry. -/
theorem joinLayer_delete_drops_whole_bucket :
    (((c2_table.execute JoinAction.insert c2_record).1.execute JoinAction.insert
        c2_record).1.execute JoinAction.delete c2_record).1.record_store = [] ∧
    update_left_index [(7, [JoinLookupKey.lookup 1, JoinLookupKey.lookup 2])]
      JoinAction.delete 7 (JoinLookupKey.lookup 1) = [] ∧
    update_right_index [(7, [JoinLookupKey.lookup 1, JoinLookupKey.lookup 2])]
      JoinAction.delete 7 (JoinLookupKey.lookup 2) = [] :=
  ⟨rfl, rfl, rfl⟩

/-! ### C3 - missing group on Delete aborts instead of returning an error -/

/-- An aggregation processor (no dimensions, no measures) whose group table
is empty. -/
def c3_proc : AggregationProcessor Unit :=
  { dimensions := []
    measures := []
    projections := []
    input_schema := { fields := [{ name := "a", typ := FieldType.intTy }] }
    aggregation_schema := { fields := [{ name := "a", typ := FieldType.intTy }] }
    states := []
    default_segment_key := 0
    agg_ins := fun s _ => .ok (s, Field.int 0)
    agg_del := fun s _ => .ok (s, Field.int 0)
    agg_upd := fun s _ _ => .ok (s, Field.int 0)
    init_states := [] }

/-- Claim C3, behaviour of the code at the failing input: a `Delete` whose
dimension key has no entry in the group table makes `aggregate` fail the
`assert!` - an abort of the program (`panicked`), not a returned error. -/
theorem aggregate_missing_group_delete_aborts :
    (AggregationProcessor.aggregate c3_proc
        (Operation.delete (Record.new [Field.int 1]))).2 = AggResult.panicked ∧
    (AggregationProcessor.aggregate c3_proc
        (Operation.update (Record.new [Field.int 1]) (Record.new [Field.int 2]))).2
      = AggResult.panicked :=
  ⟨rfl, rfl⟩

/-! ### C9/C10 - projection processor -/

/-- `Except` bind on an `ok` value steps to the continuation. -/
theorem exceptBind_ok {ε α β : Type} (a : α) (f : α → Except ε β) :
    (Except.ok a : Except ε α) >>= f = f a := rfl

/-- `Except` bind on an `error` short-circuits. -/
theorem exceptBind_error {ε α β : Type} (e : ε) (f : α → Except ε β) :
    (Except.error e : Except ε α) >>= f = Except.error e := rfl

/-- `Except` pure is `ok`. -/
theorem exceptPure {ε α : Type} (a : α) :
    (pure a : Except ε α) = Except.ok a := rfl

namespace ProjectionProcessor

/-- The claim-level evaluations: each expression applied to the record
under the schema, in declared order, with no error wrapping. -/
def eval_all (exprs : List Expression) (r : Record) (s : Schema) :
    Except PipelineError (List Field) :=
  match exprs with
  | [] => .ok []
  | e :: rest => do
      let f ← e r s
      let tail ← eval_all rest r s
      pure (f :: tail)

theorem project_values_of_eval_all {exprs : List Expression} {r : Record}
    {s : Schema} {fs : List Field} (h : eval_all exprs r s = .ok fs) :
    project_values exprs r s = .ok fs := by
  induction exprs generalizing fs with
  | nil =>
      simp [eval_all] at h
      simp [project_values, h]
  | cons e rest ih =>
      simp only [eval_all] at h
      cases he : e r s with
      | error pe => rw [he, exceptBind_error] at h; exact absurd h (by simp)
      | ok f =>
          rw [he, exceptBind_ok] at h
          cases ht : eval_all rest r s with
          | error pe => rw [ht, exceptBind_error] at h; exact absurd h (by simp)
          | ok tail =>
              rw [ht, exceptBind_ok, exceptPure] at h
              simp only [Except.ok.injEq] at h
              simp [project_values, he, ih ht, h]

theorem update_loop_of_eval_all {exprs : List Expression} {old new : Record}
    {s : Schema} {fs gs : List Field} (hold : eval_all exprs old s = .ok fs)
    (hnew : eval_all exprs new s = .ok gs) :
    update_loop exprs old new s = .ok (fs, gs) := by
  induction exprs generalizing fs gs with
  | nil =>
      simp [eval_all] at hold hnew
      simp [update_loop, hold, hnew]
  | cons e rest ih =>
      simp only [eval_all] at hold hnew
      cases ho : e old s with
      | error pe => rw [ho, exceptBind_error] at hold; exact absurd hold (by simp)
      | ok ov =>
          rw [ho, exceptBind_ok] at hold
          cases hn : e new s with
          | error pe => rw [hn, exceptBind_error] at hnew; exact absurd hnew (by simp)
          | ok nv =>
              rw [hn, exceptBind_ok] at hnew
              cases hto : eval_all rest old s with
              | error pe => rw [hto, exceptBind_error] at hold; exact absurd hold (by simp)
              | ok otail =>
                  cases htn : eval_all rest new s with
                  | error pe => rw [htn, exceptBind_error] at hnew; exact absurd hnew (by simp)
                  | ok ntail =>
                      rw [hto, exceptBind_ok, exceptPure] at hold
                      rw [htn, exceptBind_ok, exceptPure] at hnew
                      simp only [Except.ok.injEq] at hold hnew
                      simp [update_loop, ho, hn, ih hto htn, hold, hnew]

end ProjectionProcessor

/-- Claim C9: the projection processor maps every input operation to
exactly one operation of the same variant; each output record's fields are
the evaluations of the expression list, in declared order, against the
corresponding input record under the input schema; the input record's
lifetime is copied unchanged; and `process` keeps no state (it is a pure
function of the processor and the operation - the embedding does not even
thread the processor). -/
theorem projection_is_pointwise_evaluation (p : ProjectionProcessor)
    (send : Operation → Nat → Except ExecutionError Unit) (old new : Record)
    (fs gs : List Field)
    (hold : ProjectionProcessor.eval_all p.expressions old p.input_schema = .ok fs)
    (hnew : ProjectionProcessor.eval_all p.expressions new p.input_schema = .ok gs) :
    p.process send (Operation.insert new)
      = ([(Operation.insert { values := gs, lifetime := new.lifetime },
            DEFAULT_PORT_HANDLE)], .ok ()) ∧
    p.process send (Operation.delete old)
      = ([(Operation.delete { values := fs, lifetime := old.lifetime },
            DEFAULT_PORT_HANDLE)], .ok ()) ∧
    p.process send (Operation.update old new)
      = ([(Operation.update { values := fs, lifetime := old.lifetime }
              { values := gs, lifetime := new.lifetime },
            DEFAULT_PORT_HANDLE)], .ok ()) := by
  refine ⟨?_, ?_, ?_⟩
  · simp [ProjectionProcessor.process, ProjectionProcessor.insert,
      ProjectionProcessor.project_values_of_eval_all hnew]
  · simp [ProjectionProcessor.process, ProjectionProcessor.delete,
      ProjectionProcessor.project_values_of_eval_all hold]
  · simp [ProjectionProcessor.process, ProjectionProcessor.update,
      ProjectionProcessor.update_loop_of_eval_all hold hnew]

/-- A concrete projection processor: expressions `[values[0], values[1]]`. -/
def c9_proc : ProjectionProcessor :=
  { expressions :=
      [fun r _ => .ok (r.values.getD 0 Field.null),
       fun r _ => .ok (r.values.getD 1 Field.null)]
    input_schema := { fields := [{ name := "a", typ := FieldType.intTy },
                                 { name := "b", typ := FieldType.intTy }] } }

/-- A forwarder that always fails, to exhibit send-result independence. -/
def c9_bad_send : Operation → Nat → Except ExecutionError Unit :=
  fun _ _ => .error (.channelError "down")

def c9_old : Record := { values := [Field.int 2, Field.int 3], lifetime := Option.some ⟨5, 6⟩ }

def c9_new : Record := { values := [Field.int 2, Field.int 4], lifetime := Option.none }

/-- Witness for C9 at a concrete processor, records and forwarder. -/
theorem projection_is_pointwise_evaluation_witness :
    ProjectionProcessor.eval_all c9_proc.expressions c9_old c9_proc.input_schema
      = .ok [Field.int 2, Field.int 3] ∧
    c9_proc.process c9_bad_send (Operation.update c9_old c9_new)
      = ([(Operation.update
            { values := [Field.int 2, Field.int 3], lifetime := Option.some ⟨5, 6⟩ }
            { values := [Field.int 2, Field.int 4], lifetime := Option.none },
          DEFAULT_PORT_HANDLE)], .ok ()) :=
  ⟨rfl,
    (projection_is_pointwise_evaluation c9_proc c9_bad_send c9_old c9_new
      [Field.int 2, Field.int 3] [Field.int 2, Field.int 4] rfl rfl).2.2⟩

/-! ### C8/C1 - join expansions -/

theorem expand_matches_of_lookup_list
    (lookup : JoinLookupKey → Except JoinError (List Record))
    (keys : List JoinLookupKey)
    (mk : Record → JoinLookupKey → JoinAction × Record × JoinLookupKey)
    (recss : List (List Record)) (h : lookup_list lookup keys = .ok recss) :
    expand_matches lookup keys mk
      = .ok ((keys.zip recss).flatMap fun pr => pr.2.map fun r => mk r pr.1) := by
  induction keys generalizing recss with
  | nil =>
      simp [lookup_list] at h
      simp [expand_matches, ← h]
  | cons k rest ih =>
      simp only [lookup_list] at h
      cases hk : lookup k with
      | error e => rw [hk, exceptBind_error] at h; exact absurd h (by simp)
      | ok recs =>
          rw [hk, exceptBind_ok] at h
          cases ht : lookup_list lookup rest with
          | error e => rw [ht, exceptBind_error] at h; exact absurd h (by simp)
          | ok tail =>
              rw [ht, exceptBind_ok, exceptPure] at h
              simp only [Except.ok.injEq] at h
              subst h
              simp [expand_matches, hk, exceptBind_ok, ih tail ht, exceptPure]

theorem expand_compensating_of_lookup_list
    (lookup : JoinLookupKey → Except JoinError (List Record))
    (keys : List JoinLookupKey)
    (emit : Record → JoinLookupKey → List (JoinAction × Record × JoinLookupKey))
    (recss : List (List Record)) (h : lookup_list lookup keys = .ok recss) :
    expand_compensating lookup keys emit
      = .ok ((keys.zip recss).flatMap fun pr => pr.2.flatMap fun r => emit r pr.1) := by
  induction keys generalizing recss with
  | nil =>
      simp [lookup_list] at h
      simp [expand_compensating, ← h]
  | cons k rest ih =>
      simp only [lookup_list] at h
      cases hk : lookup k with
      | error e => rw [hk, exceptBind_error] at h; exact absurd h (by simp)
      | ok recs =>
          rw [hk, exceptBind_ok] at h
          cases ht : lookup_list lookup rest with
          | error e => rw [ht, exceptBind_error] at h; exact absurd h (by simp)
          | ok tail =>
              rw [ht, exceptBind_ok, exceptPure] at h
              simp only [Except.ok.injEq] at h
              subst h
              simp [expand_compensating, hk, exceptBind_ok, ih tail ht, exceptPure]

/-- Claim C8: a LeftOuter join on a left arrival. If the right lookup-index
bucket at the left join-key hash is empty, exactly one event is emitted,
with the same action, the record `concat(left, null_record(right_schema))`
(one null per right column) and key `Composite{Some(lk), None}`; otherwise
one event per matching right record, with record `concat(left, right)` and
key `Composite{Some(lk), Some(rk)}`. -/
theorem left_join_spec (right_lookup_index_map : MultiMap JoinLookupKey)
    (right_source : JoinSource) (action : JoinAction) (left_join_key : Nat)
    (left_record : Record) (left_lookup_key : JoinLookupKey)
    (recss : List (List Record))
    (h : lookup_list right_source.lookup
        ((right_lookup_index_map.getVec left_join_key).getD []) = .ok recss) :
    left_join right_lookup_index_map right_source action left_join_key
        left_record left_lookup_key
      = .ok (
        if (right_lookup_index_map.getVec left_join_key).getD [] = [] then
          [(action,
            Record.new (left_record.values
              ++ right_source.get_output_schema.fields.map fun _ => Field.null),
            JoinLookupKey.composite (.some left_lookup_key) .none)]
        else
          (((right_lookup_index_map.getVec left_join_key).getD []).zip recss).flatMap
            fun pr => pr.2.map fun r =>
              (action, Record.new (left_record.values ++ r.values),
                JoinLookupKey.composite (.some left_lookup_key) (.some pr.1))) := by
  rcases hbk : (right_lookup_index_map.getVec left_join_key).getD [] with _ | ⟨k, ks⟩
  · simp [left_join, hbk, join_records, Record.from_schema, Record.new]
  · rw [hbk] at h
    simp [left_join, hbk, expand_matches_of_lookup_list _ _ _ _ h,
      join_records, Record.new]

/-- Claim C1: a RightOuter join on a left arrival (`right_join_reverse`).
Empty right bucket at the left join-key hash: nothing is emitted. For each
matching right record `r`, the pre-event left match count is the size of
the left lookup-index bucket at the hash of `r`'s join key, minus one for
an `Insert` and minus zero for a `Delete`; a positive count emits the
single `(action, concat(left, r))` event; a zero count emits, for Insert,
`Delete(concat(null, r))` then `Insert(concat(left, r))`, and for Delete,
`Delete(concat(left, r))` then `Insert(concat(null, r))`, the placeholder
carrying `Composite{Some(lk), None}`. -/
theorem right_join_reverse_spec
    (left_lookup_index_map right_lookup_index_map : MultiMap JoinLookupKey)
    (right_join_key_indexes : List Nat) (left_source right_source : JoinSource)
    (action : JoinAction) (left_join_key : Nat) (left_record : Record)
    (left_lookup_key : JoinLookupKey) (recss : List (List Record))
    (h : lookup_list right_source.lookup
        ((right_lookup_index_map.getVec left_join_key).getD []) = .ok recss) :
    right_join_reverse left_lookup_index_map right_lookup_index_map
        right_join_key_indexes left_source right_source action left_join_key
        left_record left_lookup_key
      = .ok (
        (((right_lookup_index_map.getVec left_join_key).getD []).zip recss).flatMap
          fun pr => pr.2.flatMap fun r =>
            if 0 < ((left_lookup_index_map.getVec
                  (hash64 (r.get_fields_by_indexes right_join_key_indexes))).getD []).length
                - (if action = JoinAction.insert then 1 else 0) then
              [(action, Record.new (left_record.values ++ r.values),
                JoinLookupKey.composite (.some left_lookup_key) (.some pr.1))]
            else
              match action with
              | JoinAction.insert =>
                  [(JoinAction.delete,
                    Record.new ((left_source.get_output_schema.fields.map fun _ => Field.null)
                      ++ r.values),
                    JoinLookupKey.composite (.some left_lookup_key) OptLookupKey.none),
                   (JoinAction.insert, Record.new (left_record.values ++ r.values),
                    JoinLookupKey.composite (.some left_lookup_key) (.some pr.1))]
              | JoinAction.delete =>
                  [(JoinAction.delete, Record.new (left_record.values ++ r.values),
                    JoinLookupKey.composite (.some left_lookup_key) (.some pr.1)),
                   (JoinAction.insert,
                    Record.new ((left_source.get_output_schema.fields.map fun _ => Field.null)
                      ++ r.values),
                    JoinLookupKey.composite (.some left_lookup_key) OptLookupKey.none)]) := by
  rcases hbk : (right_lookup_index_map.getVec left_join_key).getD [] with _ | ⟨k, ks⟩
  · simp [right_join_reverse, hbk]
  · rw [hbk] at h
    simp [right_join_reverse, hbk, expand_compensating_of_lookup_list _ _ _ _ h,
      get_left_matching_count, join_records, Record.from_schema, Record.new, gt_iff_lt]

/-- Left leaf of the witness joins: two int columns, empty store. -/
def cw_left_table : JoinTable :=
  { port := 0
    schema := { fields := [{ name := "l", typ := FieldType.intTy },
                           { name := "k", typ := FieldType.intTy }] }
    record_store := [] }

def cw_left_source : JoinSource := .table cw_left_table

/-- Right leaf of the witness joins: one stored record `[1, 20]`. -/
def cw_right_table : JoinTable :=
  { port := 1
    schema := { fields := [{ name := "k", typ := FieldType.intTy },
                           { name := "r", typ := FieldType.intTy }] }
    record_store := [(hash64 [Field.int 1, Field.int 20],
                      [Record.new [Field.int 1, Field.int 20]])] }

def cw_right_source : JoinSource := .table cw_right_table

def cw_right_record : Record := Record.new [Field.int 1, Field.int 20]

def cw_rkey : JoinLookupKey := .lookup (hash64 [Field.int 1, Field.int 20])

def cw_left_record : Record := Record.new [Field.int 10, Field.int 1]

def cw_lk : JoinLookupKey := .lookup (hash64 [Field.int 10, Field.int 1])

/-- Both sides join on the field tuple `[1]` (left key index 1, right key
index 0). -/
def cw_key_hash : Nat := hash64 [Field.int 1]

def cw_right_idx : MultiMap JoinLookupKey := [(cw_key_hash, [cw_rkey])]

def cw_left_idx : MultiMap JoinLookupKey := [(cw_key_hash, [cw_lk])]

/-- Witness for C8 at a concrete operator state: the non-empty right bucket
produces exactly the one matched event. -/
theorem left_join_spec_witness :
    lookup_list cw_right_source.lookup ((cw_right_idx.getVec cw_key_hash).getD [])
      = .ok [[cw_right_record]] ∧
    left_join cw_right_idx cw_right_source JoinAction.insert cw_key_hash
        cw_left_record cw_lk
      = .ok [(JoinAction.insert,
              Record.new [Field.int 10, Field.int 1, Field.int 1, Field.int 20],
              JoinLookupKey.composite (.some cw_lk) (.some cw_rkey))] := by
  refine ⟨rfl, ?_⟩
  exact (left_join_spec cw_right_idx cw_right_source JoinAction.insert cw_key_hash
    cw_left_record cw_lk [[cw_right_record]] rfl).trans (by decide)

/-- Witness for C1 at a concrete operator state: an Insert whose pre-event
left match count is zero emits the compensating `Delete(null ++ r)` then
`Insert(left ++ r)` pair. -/
theorem right_join_reverse_spec_witness :
    lookup_list cw_right_source.lookup ((cw_right_idx.getVec cw_key_hash).getD [])
      = .ok [[cw_right_record]] ∧
    right_join_reverse cw_left_idx cw_right_idx [0] cw_left_source cw_right_source
        JoinAction.insert cw_key_hash cw_left_record cw_lk
      = .ok [(JoinAction.delete,
              Record.new [Field.null, Field.null, Field.int 1, Field.int 20],
              JoinLookupKey.composite (.some cw_lk) .none),
             (JoinAction.insert,
              Record.new [Field.int 10, Field.int 1, Field.int 1, Field.int 20],
              JoinLookupKey.composite (.some cw_lk) (.some cw_rkey))] := by
  refine ⟨rfl, ?_⟩
  exact (right_join_reverse_spec cw_left_idx cw_right_idx [0] cw_left_source
    cw_right_source JoinAction.insert cw_key_hash cw_left_record cw_lk
    [[cw_right_record]] rfl).trans (by decide)

/-- Claim C10: when every expression evaluation succeeds,
`ProjectionProcessor::process` returns `Ok(())` for any forwarder whatsoever:
the result of `fw.send` is bound to `_` and discarded, so a forwarder error
never reaches the caller of `process`. -/
theorem projection_process_discards_send_result (p : ProjectionProcessor)
    (send : Operation → Nat → Except ExecutionError Unit) (old new : Record)
    (fs gs : List Field)
    (hold : ProjectionProcessor.eval_all p.expressions old p.input_schema = .ok fs)
    (hnew : ProjectionProcessor.eval_all p.expressions new p.input_schema = .ok gs) :
    (p.process send (Operation.insert new)).2 = .ok () ∧
    (p.process send (Operation.delete old)).2 = .ok () ∧
    (p.process send (Operation.update old new)).2 = .ok () := by
  refine ⟨?_, ?_, ?_⟩
  · simp [ProjectionProcessor.process, ProjectionProcessor.insert,
      ProjectionProcessor.project_values_of_eval_all hnew]
  · simp [ProjectionProcessor.process, ProjectionProcessor.delete,
      ProjectionProcessor.project_values_of_eval_all hold]
  · simp [ProjectionProcessor.process, ProjectionProcessor.update,
      ProjectionProcessor.update_loop_of_eval_all hold hnew]

/-- Witness for C10: a forwarder that always errors, yet `process` still
returns `Ok(())` on all three variants. -/
theorem projection_process_discards_send_result_witness :
    ProjectionProcessor.eval_all c9_proc.expressions c9_new c9_proc.input_schema
      = .ok [Field.int 2, Field.int 4] ∧
    (c9_proc.process c9_bad_send (Operation.insert c9_new)).2 = .ok () ∧
    (c9_proc.process c9_bad_send (Operation.delete c9_old)).2 = .ok () ∧
    (c9_proc.process c9_bad_send (Operation.update c9_old c9_new)).2 = .ok () := by
  have h := projection_process_discards_send_result c9_proc c9_bad_send c9_old c9_new
    [Field.int 2, Field.int 3] [Field.int 2, Field.int 4] rfl rfl
  exact ⟨rfl, h.1, h.2.1, h.2.2⟩

/-! ### C5/C6/C7/C4 - aggregation processor -/

namespace AggregationProcessor

theorem calc_fst_count {σ : Type} (p : AggregationProcessor σ)
    (st : AggregationState σ) (d i : Option Record) (op : AggregatorOperation) :
    (calc_and_fill_measures p st d i op).1.count = st.count := rfl

theorem calc_fst_values {σ : Type} (p : AggregationProcessor σ)
    (st : AggregationState σ) (d i : Option Record) (op : AggregatorOperation) :
    (calc_and_fill_measures p st d i op).1.values = st.values := rfl

/-- Claim C5: an `Insert{new}` through `aggregate`. With the group key
computed, the measure pass and the projections succeeding: when the
group's count was 0 before the event (in particular when the group is
newly created) exactly one `Insert` is emitted, carrying the projection
over the input plus the new measure values; otherwise exactly one `Update`
whose `old` is built from the prior measure values and `new` from the
post-insert values; afterwards the group's count is incremented by one and
its values are `Some` of the new measure values. -/
theorem agg_insert_spec {σ : Type} (p : AggregationProcessor σ) (new : Record)
    (key : Nat) (st' : AggregationState σ) (out_del out_ins new_vals : List Field)
    (insRec delRec : Record)
    (hkey : record_key p new = .ok key)
    (hcalc : calc_and_fill_measures p
        ((getState p.states key).getD (freshState p)) Option.none
        (Option.some new) AggregatorOperation.insert
      = (st', .ok (out_del, out_ins, new_vals)))
    (hins : build_projection p new out_ins = .ok insRec)
    (hdel : build_projection p new out_del = .ok delRec) :
    aggregate p (Operation.insert new)
      = ({ p with states := setState p.states key { st' with count := st'.count + 1, values := Option.some new_vals } },
        .ok [if ((getState p.states key).getD (freshState p)).count = 0
            then Operation.insert insRec
            else Operation.update delRec insRec]) := by
  have hc : ((getState p.states key).getD (freshState p)).count = st'.count :=
    (calc_fst_count p _ _ _ _).symm.trans (congrArg (fun x => x.1.count) hcalc)
  by_cases h0 : st'.count = 0 <;>
    simp [aggregate, agg_insert, hkey, hcalc, hc, h0, hins, hdel,
      exceptBind_ok, exceptPure]

/-- Claim C6: a `Delete{old}` through `aggregate` on an existing group.
With the measure pass and the projections succeeding: when the group's
count is 1 the group is removed from the table and exactly one `Delete` is
emitted, built from the prior measure values; otherwise the count is
decremented by one, the values become `Some` of the post-delete measure
values, and exactly one `Update` is emitted with `old` from the prior
values and `new` from the post-delete values. -/
theorem agg_delete_spec {σ : Type} (p : AggregationProcessor σ) (old : Record)
    (key : Nat) (st st' : AggregationState σ)
    (out_del out_ins new_vals : List Field) (delRec insRec : Record)
    (hkey : record_key p old = .ok key)
    (hst : getState p.states key = Option.some st)
    (hcalc : calc_and_fill_measures p st (Option.some old) Option.none
        AggregatorOperation.delete = (st', .ok (out_del, out_ins, new_vals)))
    (hdel : build_projection p old out_del = .ok delRec)
    (hins : build_projection p old out_ins = .ok insRec) :
    aggregate p (Operation.delete old)
      = (if st.count = 1 then
          ({ p with states := removeState p.states key }, .ok [Operation.delete delRec])
        else
          ({ p with states := setState p.states key { st' with count := st'.count - 1, values := Option.some new_vals } },
            .ok [Operation.update delRec insRec])) := by
  have hc : st.count = st'.count :=
    (calc_fst_count p st (Option.some old) Option.none AggregatorOperation.delete).symm.trans
      (congrArg (fun x => x.1.count) hcalc)
  by_cases h1 : st'.count = 1 <;>
    simp [aggregate, agg_delete, hkey, hst, hcalc, hc, h1, hdel, hins,
      exceptBind_ok, exceptPure]

/-- Claim C7: an `Update{old,new}` through `aggregate`. When the dimension
hashes of `old` and `new` are equal - in particular with an empty dimension
list, where both are the sentinel key - the operator performs the single
combined `agg_update` pass on the group (the aggregator's `update`
routine), emits exactly one `Update` event and never deletes the group:
the group stays in the table with its count unchanged and only its values
replaced. When the hashes differ, it emits exactly the events of
`agg_delete(old)` followed by those of `agg_insert(new)`, in that order,
on the correspondingly threaded state. -/
theorem aggregate_update_dispatch {σ : Type} :
    (∀ (p : AggregationProcessor σ) (old new : Record) (key : Nat)
        (st st' : AggregationState σ) (out_del out_ins new_vals : List Field)
        (oldRec newRec : Record),
      update_keys p old new = .ok (key, key) →
      getState p.states key = Option.some st →
      calc_and_fill_measures p st (Option.some old) (Option.some new)
          AggregatorOperation.update = (st', .ok (out_del, out_ins, new_vals)) →
      build_projection p new out_ins = .ok newRec →
      build_projection p old out_del = .ok oldRec →
      aggregate p (Operation.update old new)
        = ({ p with states := setState p.states key { st' with values := Option.some new_vals } },
          .ok [Operation.update oldRec newRec])) ∧
    (∀ (p p1 p2 : AggregationProcessor σ) (old new : Record) (k1 k2 : Nat)
        (o1 o2 : Operation),
      update_keys p old new = .ok (k1, k2) → k1 ≠ k2 →
      agg_delete p old = (p1, .ok o1) →
      agg_insert p1 new = (p2, .ok o2) →
      aggregate p (Operation.update old new) = (p2, .ok [o1, o2])) := by
  constructor
  · intro p old new key st st' out_del out_ins new_vals oldRec newRec
      hkeys hst hcalc hnew hold
    simp [aggregate, agg_update, hkeys, hst, hcalc, hnew, hold,
      exceptBind_ok, exceptPure]
  · intro p p1 p2 old new k1 k2 o1 o2 hkeys hne hd hi
    simp [aggregate, hkeys, hne, hd, hi]

theorem getState_mem {σ : Type} {m : List (Nat × AggregationState σ)} {k : Nat}
    {st : AggregationState σ} (h : getState m k = Option.some st) : (k, st) ∈ m := by
  induction m with
  | nil => simp [getState] at h
  | cons hd tl ih =>
      rcases hd with ⟨k', st'⟩
      by_cases hk : k' = k
      · subst hk
        simp [getState] at h
        simp [h]
      · simp [getState, hk] at h
        exact List.mem_cons_of_mem _ (ih h)

theorem mem_setState {σ : Type} {m : List (Nat × AggregationState σ)} {k : Nat}
    {st : AggregationState σ} {e : Nat × AggregationState σ}
    (he : e ∈ setState m k st) : e = (k, st) ∨ e ∈ m := by
  induction m with
  | nil => simpa [setState] using he
  | cons hd tl ih =>
      rcases hd with ⟨k', st'⟩
      by_cases hk : k' = k
      · subst hk
        simp [setState] at he
        rcases he with he | he
        · exact Or.inl (by simp [he])
        · exact Or.inr (by simp [he])
      · simp [setState, hk] at he
        rcases he with he | he
        · exact Or.inr (by simp [he])
        · rcases ih he with h1 | h1
          · exact Or.inl h1
          · exact Or.inr (by simp [h1])

theorem mem_removeState {σ : Type} {m : List (Nat × AggregationState σ)} {k : Nat}
    {e : Nat × AggregationState σ} (he : e ∈ removeState m k) : e ∈ m := by
  induction m with
  | nil => simp [removeState] at he
  | cons hd tl ih =>
      rcases hd with ⟨k', st'⟩
      by_cases hk : k' = k
      · subst hk
        simp [removeState] at he
        exact List.mem_cons_of_mem _ (ih he)
      · simp [removeState, hk] at he
        rcases he with he | he
        · simp [he]
        · exact List.mem_cons_of_mem _ (ih he)

theorem agg_insert_ok_counts {σ : Type} {p p' : AggregationProcessor σ}
    {new : Record} {o : Operation} (h : agg_insert p new = (p', .ok o))
    (hinv : ∀ e ∈ p.states, 1 ≤ (Prod.snd e).count) :
    ∀ e ∈ p'.states, 1 ≤ (Prod.snd e).count := by
  simp only [agg_insert] at h
  split at h
  · simp at h
  · split at h
    · simp at h
    · simp at h
    · split at h
      · simp at h
      · simp only [Prod.mk.injEq] at h
        obtain ⟨hp, -⟩ := h
        intro e he
        rw [← hp] at he
        rcases mem_setState he with h1 | h1
        · subst h1
          exact Nat.succ_le_succ (Nat.zero_le _)
        · exact hinv e h1

theorem agg_delete_ok_counts {σ : Type} {p p' : AggregationProcessor σ}
    {old : Record} {o : Operation} (h : agg_delete p old = (p', .ok o))
    (hinv : ∀ e ∈ p.states, 1 ≤ (Prod.snd e).count) :
    ∀ e ∈ p'.states, 1 ≤ (Prod.snd e).count := by
  simp only [agg_delete] at h
  split at h
  · simp at h
  · rename_i key hkey
    split at h
    · simp at h
    · rename_i curr_state hst
      split at h
      · simp at h
      · simp at h
      · rename_i st' out_del out_ins new_vals hcalc
        split at h
        · rename_i h1
          split at h
          · simp at h
          · simp only [Prod.mk.injEq] at h
            obtain ⟨hp, -⟩ := h
            intro e he
            rw [← hp] at he
            exact hinv e (mem_removeState he)
        · rename_i h1
          split at h
          · simp at h
          · split at h
            · simp at h
            · simp only [Prod.mk.injEq] at h
              obtain ⟨hp, -⟩ := h
              intro e he
              rw [← hp] at he
              rcases mem_setState he with h2 | h2
              · have hc : curr_state.count = st'.count :=
                  (calc_fst_count p curr_state (Option.some old) Option.none
                    AggregatorOperation.delete).symm.trans
                    (congrArg (fun x => x.1.count) hcalc)
                have hm : 1 ≤ curr_state.count :=
                  hinv (key, curr_state) (getState_mem hst)
                subst h2
                show 1 ≤ st'.count - 1
                omega
              · exact hinv e h2

theorem agg_update_ok_counts {σ : Type} {p p' : AggregationProcessor σ}
    {old new : Record} {key : Nat} {o : Operation}
    (h : agg_update p old new key = (p', .ok o))
    (hinv : ∀ e ∈ p.states, 1 ≤ (Prod.snd e).count) :
    ∀ e ∈ p'.states, 1 ≤ (Prod.snd e).count := by
  simp only [agg_update] at h
  split at h
  · simp at h
  · rename_i curr_state hst
    split at h
    · simp at h
    · simp at h
    · rename_i st' out_del out_ins new_vals hcalc
      split at h
      · simp at h
      · split at h
        · simp at h
        · simp only [Prod.mk.injEq] at h
          obtain ⟨hp, -⟩ := h
          intro e he
          rw [← hp] at he
          rcases mem_setState he with h2 | h2
          · have hc : curr_state.count = st'.count :=
              (calc_fst_count p curr_state (Option.some old) (Option.some new)
                AggregatorOperation.update).symm.trans
                (congrArg (fun x => x.1.count) hcalc)
            have hm : 1 ≤ curr_state.count :=
              hinv (key, curr_state) (getState_mem hst)
            subst h2
            show 1 ≤ st'.count
            omega
          · exact hinv e h2

/-- Claim C4, amended: after every call to `aggregate` that returns `Ok`,
starting from a group table in which every present state has `count >= 1`
(equivalently, `count == 0` iff the group is absent), every state present
in the table still has `count >= 1`. (The unamended claim, quantified over
`Err`-returning calls as well, is refuted by the counterexample: a failing
measure evaluation leaves the freshly materialised count-0 group behind.) -/
theorem aggregate_ok_preserves_pos_counts {σ : Type}
    {p p' : AggregationProcessor σ} {op : Operation} {ops : List Operation}
    (h : aggregate p op = (p', .ok ops))
    (hinv : ∀ e ∈ p.states, 1 ≤ (Prod.snd e).count) :
    ∀ e ∈ p'.states, 1 ≤ (Prod.snd e).count := by
  cases op with
  | insert new =>
      simp only [aggregate] at h
      split at h
      · rename_i p1 o1 heq
        simp only [Prod.mk.injEq] at h
        obtain ⟨hp, -⟩ := h
        exact hp ▸ agg_insert_ok_counts heq hinv
      · simp at h
      · simp at h
  | delete old =>
      simp only [aggregate] at h
      split at h
      · rename_i p1 o1 heq
        simp only [Prod.mk.injEq] at h
        obtain ⟨hp, -⟩ := h
        exact hp ▸ agg_delete_ok_counts heq hinv
      · simp at h
      · simp at h
  | update old new =>
      simp only [aggregate] at h
      split at h
      · simp at h
      · rename_i k1 k2 hkeys
        split at h
        · split at h
          · rename_i p1 o1 heq
            simp only [Prod.mk.injEq] at h
            obtain ⟨hp, -⟩ := h
            exact hp ▸ agg_update_ok_counts heq hinv
          · simp at h
          · simp at h
        · split at h
          · rename_i p1 o1 heq1
            split at h
            · rename_i p2 o2 heq2
              simp only [Prod.mk.injEq] at h
              obtain ⟨hp, -⟩ := h
              exact hp ▸ agg_insert_ok_counts heq2 (agg_delete_ok_counts heq1 hinv)
            · simp at h
            · simp at h
          · simp at h
          · simp at h

end AggregationProcessor

/-- Input schema `{a: int, b: int}` of the concrete aggregation processors. -/
def cax_input_schema : Schema :=
  { fields := [{ name := "a", typ := FieldType.intTy },
               { name := "b", typ := FieldType.intTy }] }

/-- Aggregation schema `{a, b, m}`: input columns plus the appended measure. -/
def cax_agg_schema : Schema :=
  { fields := [{ name := "a", typ := FieldType.intTy },
               { name := "b", typ := FieldType.intTy },
               { name := "m", typ := FieldType.intTy }] }

/-- The evaluator expression selecting column `i` of the record. -/
def col (i : Nat) : Expression := fun r _ => .ok (r.values.getD i Field.null)

/-- An evaluator expression that always fails. -/
def bad_expr : Expression := fun _ _ => .error (.typeError "measure eval failed")

/-- A concrete processor: no dimensions (sentinel key `0`), one "last value"
measure over column `b`, projections `[a, m]`, empty group table, trivial
aggregator state. -/
def cax_base : AggregationProcessor Unit :=
  { dimensions := []
    measures := [[col 1]]
    projections := [col 0, col 2]
    input_schema := cax_input_schema
    aggregation_schema := cax_agg_schema
    states := []
    default_segment_key := 0
    agg_ins := fun s fs => .ok (s, fs.getD 0 Field.null)
    agg_del := fun s fs => .ok (s, fs.getD 0 Field.null)
    agg_upd := fun s _ ns => .ok (s, ns.getD 0 Field.null)
    init_states := [()] }

/-- `cax_base` with a measure whose argument evaluation always fails. -/
def c4_proc : AggregationProcessor Unit := { cax_base with measures := [[bad_expr]] }

/-- `cax_base` with one existing group of count 2 and values `[30]`. -/
def c6_proc : AggregationProcessor Unit :=
  { cax_base with states :=
      [(0, { count := 2, states := [()], values := Option.some [Field.int 30] })] }

/-- `cax_base` keyed by the dimension `a`, holding the single-row group of
the record `[1, 10]`. -/
def c7_proc : AggregationProcessor Unit :=
  { cax_base with
      dimensions := [col 0]
      states := [(hash64 [Field.int 1],
        { count := 1, states := [()], values := Option.some [Field.int 10] })] }

def c5_new : Record := Record.new [Field.int 1, Field.int 10]

/-- Claim C4, counterexample: `aggregate` on an `Insert` whose measure
evaluation fails returns `Err`, yet `entry(key).or_insert` has already
materialised the group - the table is left holding a state with
`count = 0` (and no values), refuting "after every call ... every
AggregationState present in the group table has count >= 1". -/
theorem aggregate_err_leaves_zero_count_group :
    (AggregationProcessor.aggregate c4_proc (Operation.insert c5_new)).1.states
      = [(0, { count := 0, states := [()], values := Option.none })] ∧
    (AggregationProcessor.aggregate c4_proc (Operation.insert c5_new)).2
      = AggResult.err (.typeError "measure eval failed") :=
  ⟨rfl, rfl⟩

/-- Witness for the amended C4: a successful `Insert` into `c6_proc`
(whose sole group has count 2) keeps every group's count at least 1. -/
theorem aggregate_ok_preserves_pos_counts_witness :
    AggregationProcessor.aggregate c6_proc (Operation.insert c5_new)
      = ({ cax_base with states :=
            [(0, { count := 3, states := [()], values := Option.some [Field.int 10] })] },
         AggResult.ok [Operation.update (Record.new [Field.int 1, Field.int 30])
            (Record.new [Field.int 1, Field.int 10])]) ∧
    (∀ e ∈ ({ cax_base with states :=
        [(0, { count := 3, states := [()], values := Option.some [Field.int 10] })] } :
          AggregationProcessor Unit).states, 1 ≤ (Prod.snd e).count) := by
  constructor
  · rfl
  · exact @AggregationProcessor.aggregate_ok_preserves_pos_counts Unit c6_proc
      ({ cax_base with states :=
        [(0, { count := 3, states := [()], values := Option.some [Field.int 10] })] })
      (Operation.insert c5_new)
      [Operation.update (Record.new [Field.int 1, Field.int 30])
        (Record.new [Field.int 1, Field.int 10])]
      rfl (by decide)

/-- Witness for C5: inserting `[1, 10]` into the empty-table `cax_base`
creates the group (prior count 0), emits the single `Insert` of the
projected record, and leaves the group at count 1 with values `[10]`. -/
theorem agg_insert_spec_witness :
    AggregationProcessor.record_key cax_base c5_new = .ok 0 ∧
    (AggregationProcessor.aggregate cax_base (Operation.insert c5_new)).2
      = AggResult.ok [Operation.insert (Record.new [Field.int 1, Field.int 10])] ∧
    AggregationProcessor.getState
        (AggregationProcessor.aggregate cax_base (Operation.insert c5_new)).1.states 0
      = Option.some { count := 1, states := [()], values := Option.some [Field.int 10] } := by
  have h := AggregationProcessor.agg_insert_spec cax_base c5_new 0
    { count := 0, states := [()], values := Option.none } [] [Field.int 10] [Field.int 10]
    (Record.new [Field.int 1, Field.int 10]) (Record.new [Field.int 1, Field.null])
    rfl rfl rfl rfl
  refine ⟨rfl, ?_, ?_⟩
  · rw [h]; rfl
  · rw [h]; rfl

/-- Witness for C6: deleting `[1, 10]` from the count-2 group of `c6_proc`
decrements the count to 1, replaces the values, and emits the single
`Update` from the prior values `[30]` to the post-delete values `[10]`. -/
theorem agg_delete_spec_witness :
    AggregationProcessor.getState c6_proc.states 0
      = Option.some { count := 2, states := [()], values := Option.some [Field.int 30] } ∧
    (AggregationProcessor.aggregate c6_proc (Operation.delete c5_new)).2
      = AggResult.ok [Operation.update (Record.new [Field.int 1, Field.int 30])
          (Record.new [Field.int 1, Field.int 10])] ∧
    AggregationProcessor.getState
        (AggregationProcessor.aggregate c6_proc (Operation.delete c5_new)).1.states 0
      = Option.some { count := 1, states := [()], values := Option.some [Field.int 10] } := by
  have h := AggregationProcessor.agg_delete_spec c6_proc c5_new 0
    { count := 2, states := [()], values := Option.some [Field.int 30] }
    { count := 2, states := [()], values := Option.some [Field.int 30] }
    [Field.int 30] [Field.int 10] [Field.int 10]
    (Record.new [Field.int 1, Field.int 30]) (Record.new [Field.int 1, Field.int 10])
    rfl rfl rfl rfl rfl
  refine ⟨rfl, ?_, ?_⟩
  · rw [h]; rfl
  · rw [h]; rfl

/-- Witness for C7: once with equal dimension hashes (empty dimensions, the
sentinel key on both sides - single combined Update, group kept), once
with different hashes (the `agg_delete(old)` event followed by the
`agg_insert(new)` event). -/
theorem aggregate_update_dispatch_witness :
    (AggregationProcessor.aggregate c6_proc
        (Operation.update c5_new (Record.new [Field.int 1, Field.int 12]))).2
      = AggResult.ok [Operation.update (Record.new [Field.int 1, Field.int 30])
          (Record.new [Field.int 1, Field.int 12])] ∧
    (AggregationProcessor.aggregate c7_proc
        (Operation.update c5_new (Record.new [Field.int 2, Field.int 10]))).2
      = AggResult.ok [Operation.delete (Record.new [Field.int 1, Field.int 10]),
                      Operation.insert (Record.new [Field.int 2, Field.int 10])] := by
  constructor
  · have h := (@AggregationProcessor.aggregate_update_dispatch Unit).1 c6_proc c5_new
      (Record.new [Field.int 1, Field.int 12]) 0
      { count := 2, states := [()], values := Option.some [Field.int 30] }
      { count := 2, states := [()], values := Option.some [Field.int 30] }
      [Field.int 30] [Field.int 12] [Field.int 12]
      (Record.new [Field.int 1, Field.int 30]) (Record.new [Field.int 1, Field.int 12])
      rfl rfl rfl rfl rfl
    rw [h]
  · have h := (@AggregationProcessor.aggregate_update_dispatch Unit).2 c7_proc
      ({ c7_proc with states := [] })
      ({ c7_proc with states := [(hash64 [Field.int 2],
          { count := 1, states := [()], values := Option.some [Field.int 10] })] })
      c5_new (Record.new [Field.int 2, Field.int 10])
      (hash64 [Field.int 1]) (hash64 [Field.int 2])
      (Operation.delete (Record.new [Field.int 1, Field.int 10]))
      (Operation.insert (Record.new [Field.int 2, Field.int 10]))
      rfl (by decide) rfl rfl
    rw [h]

end Dozer
